import Mathlib

/-!
Verification of the chunking specification of the `advanced-rag-examples`
repository, together with the evaluation answer functions of the FLARE
notebook.

The repository's chunker is llama-index's `SentenceSplitter`
(`src/baseline-rag.ipynb` only configures and calls it); its implementation
is not part of this repository, so the chunking procedure is modelled from
the spec's reference design (section 4.1): a fixed-size sliding window over
a token-like counting unit, with a configured maximum chunk size and a
configured overlap between consecutive chunks.

Texts are represented as lists of tokens (`List α`, concretely
`List String` in examples), the token-like counting unit of the spec.
-/

namespace RagChunk

/-- Error raised on an invalid chunking configuration. -/
inductive ChunkError where
  | InvalidConfiguration
deriving Repr, DecidableEq

/-- Modelled from the spec: the sliding-window chunking loop of the
`SentenceSplitter` used by `src/baseline-rag.ipynb` (its implementation is
not in this repository).  Given a maximum chunk size `S`, an overlap `O`
with `O < S`, and a token list `ts`: empty input yields no chunks; input of
at most `S` tokens yields the single chunk `ts`; otherwise the first `S`
tokens form a chunk and the window advances by `S - O` tokens.  The
recursion is driven by a `fuel` counter for structural termination; `fuel`
at least the length of `ts` is always enough, since each step consumes at
least one token (`S - O ≥ 1`). -/
def chunkFuel (S O : Nat) : Nat → List α → List (List α)
  | 0, _ => []
  | fuel + 1, ts =>
    if ts.isEmpty then []
    else if ts.length ≤ S then [ts]
    else ts.take S :: chunkFuel S O fuel (ts.drop (S - O))

/-- Modelled from the spec: the chunk list of a token list under a valid
configuration, instantiating `chunkFuel` with sufficient fuel. -/
def chunkCore (S O : Nat) (ts : List α) : List (List α) :=
  chunkFuel S O ts.length ts

/-- Modelled from the spec: `SentenceSplitter.split_text` as configured and
called in `src/baseline-rag.ipynb` lines 165-170.  Rejects an invalid
configuration (`S ≤ 0` or `O ≥ S`) with `InvalidConfiguration` before any
chunk is produced; otherwise returns the chunk list of `chunkCore`. -/
def split_text (S O : Nat) (ts : List α) : Except ChunkError (List (List α)) :=
  if O < S then .ok (chunkCore S O ts)
  else .error .InvalidConfiguration

/-- Reassembly of a chunk list: keep the first chunk whole and drop the
leading `O`-token overlap from every later chunk, then concatenate. -/
def reassemble (O : Nat) : List (List α) → List α
  | [] => []
  | c :: cs => c ++ (cs.map (List.drop O)).flatten

/-- The overlap relation between two consecutive chunks: the trailing `O`
tokens of the first chunk coincide with the leading `O` tokens of the
second, and the second chunk indeed has more than `O` tokens, so the
shared span has exactly `O` tokens. -/
def overlapRel (O : Nat) (a b : List α) : Prop :=
  O ≤ a.length ∧ O ≤ b.length ∧ a.drop (a.length - O) = b.take O

/-- Dropping the leading overlap from every chunk and concatenating yields
the input minus its leading `O` tokens, provided the fuel covers the
input. -/
theorem chunkFuel_flatten {α : Type _} (S O : Nat) (hSO : O < S) :
    ∀ (fuel : Nat) (ts : List α), ts.length ≤ fuel →
      ((chunkFuel S O fuel ts).map (List.drop O)).flatten = ts.drop O := by
  intro fuel
  induction fuel with
  | zero =>
    intro ts hts
    have hnil : ts = [] := List.eq_nil_of_length_eq_zero (Nat.le_zero.mp hts)
    subst hnil
    simp [chunkFuel]
  | succ fuel ih =>
    intro ts hts
    by_cases hempty : ts = []
    · subst hempty
      simp [chunkFuel]
    · have hne : ts.isEmpty = false := by
        simp [List.isEmpty_iff, hempty]
      by_cases hlen : ts.length ≤ S
      · simp [chunkFuel, hne, hlen]
      · have hstep : chunkFuel S O (fuel + 1) ts =
            ts.take S :: chunkFuel S O fuel (ts.drop (S - O)) := by
          simp [chunkFuel, hne, hlen]
        have hrec : (ts.drop (S - O)).length ≤ fuel := by
          rw [List.length_drop]
          omega
        rw [hstep, List.map_cons, List.flatten_cons, ih _ hrec,
          List.drop_drop]
        have e1 : S - O + O = S := by omega
        have e2 : (ts.take S).drop O = (ts.drop O).take (S - O) :=
          List.drop_take ..
        have e3 : (ts.drop O).drop (S - O) = ts.drop S := by
          rw [List.drop_drop]
          congr 1
          omega
        rw [e1, e2, ← e3, List.take_append_drop]

/-- Reassembling the chunk list reconstructs the input exactly, provided
the fuel covers the input. -/
theorem reassemble_chunkFuel {α : Type _} (S O : Nat) (hSO : O < S) :
    ∀ (fuel : Nat) (ts : List α), ts.length ≤ fuel →
      reassemble O (chunkFuel S O fuel ts) = ts := by
  intro fuel
  cases fuel with
  | zero =>
    intro ts hts
    have hnil : ts = [] := List.eq_nil_of_length_eq_zero (Nat.le_zero.mp hts)
    subst hnil
    simp [chunkFuel, reassemble]
  | succ fuel =>
    intro ts hts
    by_cases hempty : ts = []
    · subst hempty
      simp [chunkFuel, reassemble]
    · have hne : ts.isEmpty = false := by
        simp [List.isEmpty_iff, hempty]
      by_cases hlen : ts.length ≤ S
      · simp [chunkFuel, hne, hlen, reassemble]
      · have hstep : chunkFuel S O (fuel + 1) ts =
            ts.take S :: chunkFuel S O fuel (ts.drop (S - O)) := by
          simp [chunkFuel, hne, hlen]
        have hrec : (ts.drop (S - O)).length ≤ fuel := by
          rw [List.length_drop]
          omega
        rw [hstep, reassemble, chunkFuel_flatten S O hSO fuel _ hrec,
          List.drop_drop]
        have e1 : S - O + O = S := by omega
        rw [e1, List.take_append_drop]

/-- Every chunk the sliding window emits has at most `S` tokens. -/
theorem chunkFuel_chunk_size {α : Type _} (S O : Nat) :
    ∀ (fuel : Nat) (ts : List α) (c : List α),
      c ∈ chunkFuel S O fuel ts → c.length ≤ S := by
  intro fuel
  induction fuel with
  | zero =>
    intro ts c hc
    simp [chunkFuel] at hc
  | succ fuel ih =>
    intro ts c hc
    by_cases hempty : ts.isEmpty
    · simp [chunkFuel, hempty] at hc
    · have hne : ts.isEmpty = false := by
        simpa using hempty
      by_cases hlen : ts.length ≤ S
      · simp [chunkFuel, hne, hlen] at hc
        subst hc
        exact hlen
      · have hstep : chunkFuel S O (fuel + 1) ts =
            ts.take S :: chunkFuel S O fuel (ts.drop (S - O)) := by
          simp [chunkFuel, hne, hlen]
        rw [hstep] at hc
        rcases List.mem_cons.mp hc with h | h
        · subst h
          simp [List.length_take]
        · exact ih _ _ h

/-- The first chunk of a nonempty input is its first `S` tokens (the whole
input when it is shorter than `S`). -/
theorem chunkFuel_head? {α : Type _} (S O fuel : Nat) (ts : List α)
    (hfuel : 0 < fuel) (hne : ts ≠ []) :
    (chunkFuel S O fuel ts).head? = some (ts.take S) := by
  cases fuel with
  | zero => omega
  | succ fuel =>
    have hne' : ts.isEmpty = false := by
      simp [List.isEmpty_iff, hne]
    by_cases hlen : ts.length ≤ S
    · simp [chunkFuel, hne', hlen, List.take_of_length_le hlen]
    · simp [chunkFuel, hne', hlen]

/-- Consecutive chunks overlap by exactly `O` tokens, provided the fuel
covers the input. -/
theorem chunkFuel_chain {α : Type _} (S O : Nat) (hSO : O < S) :
    ∀ (fuel : Nat) (ts : List α), ts.length ≤ fuel →
      List.Chain' (overlapRel O) (chunkFuel S O fuel ts) := by
  intro fuel
  induction fuel with
  | zero =>
    intro ts hts
    simp [chunkFuel]
  | succ fuel ih =>
    intro ts hts
    by_cases hempty : ts.isEmpty
    · simp [chunkFuel, hempty]
    · have hne : ts.isEmpty = false := by
        simpa using hempty
      by_cases hlen : ts.length ≤ S
      · simp [chunkFuel, hne, hlen]
      · have hstep : chunkFuel S O (fuel + 1) ts =
            ts.take S :: chunkFuel S O fuel (ts.drop (S - O)) := by
          simp [chunkFuel, hne, hlen]
        have hlen' : (ts.drop (S - O)).length = ts.length - (S - O) :=
          List.length_drop ..
        have hrec : (ts.drop (S - O)).length ≤ fuel := by omega
        have hne2 : ts.drop (S - O) ≠ [] := by
          intro hcon
          have : (ts.drop (S - O)).length = 0 := by rw [hcon]; rfl
          omega
        have hfuelpos : 0 < fuel := by
          have : 0 < (ts.drop (S - O)).length := List.length_pos.mpr hne2
          omega
        rw [hstep]
        rw [List.chain'_cons']
        refine ⟨?_, ih _ hrec⟩
        intro b hb
        rw [chunkFuel_head? S O fuel _ hfuelpos hne2] at hb
        have hb' : (ts.drop (S - O)).take S = b := by
          simpa using hb
        subst hb'
        have htake : (ts.take S).length = S := by
          rw [List.length_take]
          omega
        refine ⟨?_, ?_, ?_⟩
        · rw [htake]
          omega
        · rw [List.length_take, List.length_drop]
          omega
        · rw [htake, List.drop_take, List.take_take]
          congr 1
          omega

/-- The chunk at index `i` is the `S`-token window starting at token
`i * (S - O)` of the input. -/
theorem chunkFuel_getElem {α : Type _} (S O : Nat) :
    ∀ (fuel : Nat) (ts : List α) (i : Nat)
      (hi : i < (chunkFuel S O fuel ts).length),
      (chunkFuel S O fuel ts)[i] = (ts.drop (i * (S - O))).take S := by
  intro fuel
  induction fuel with
  | zero =>
    intro ts i hi
    simp [chunkFuel] at hi
  | succ fuel ih =>
    intro ts i hi
    by_cases hempty : ts.isEmpty
    · simp [chunkFuel, hempty] at hi
    · have hne : ts.isEmpty = false := by
        simpa using hempty
      by_cases hlen : ts.length ≤ S
      · have hstep : chunkFuel S O (fuel + 1) ts = [ts] := by
          simp [chunkFuel, hne, hlen]
        revert hi
        rw [hstep]
        intro hi
        have hi0 : i = 0 := by
          simp at hi
          exact hi
        subst hi0
        simp [List.take_of_length_le hlen]
      · have hstep : chunkFuel S O (fuel + 1) ts =
            ts.take S :: chunkFuel S O fuel (ts.drop (S - O)) := by
          simp [chunkFuel, hne, hlen]
        revert hi
        rw [hstep]
        intro hi
        cases i with
        | zero => simp
        | succ i =>
          have hi' : i < (chunkFuel S O fuel (ts.drop (S - O))).length := by
            simpa using hi
          have hrec := ih (ts.drop (S - O)) i hi'
          simp only [List.getElem_cons_succ]
          rw [hrec, List.drop_drop]
          congr 2
          rw [Nat.succ_mul, Nat.add_comm]

/-- A document as in the spec's data model: an identifier, raw text
(tokenized), and metadata keys mapped to values. -/
structure Document where
  id_ : String
  text : List String
  metadata : List (String × String)
deriving Repr, DecidableEq

/-- One entry of the `document_data` list built by the indexing loop of
`src/baseline-rag.ipynb` lines 169-179: a chunk id formed from the document
id and the chunk's index, the chunk text, and the document's metadata.  The
`embedding` field of the notebook entry is the response of the external
embedding service and is outside the model. -/
structure ChunkRecord where
  id : String
  text : List String
  metadata : List (String × String)
deriving Repr, DecidableEq

/-- The chunk records one document contributes to `document_data`: the
inner loop `for idx, chunk in enumerate(chunks)` of
`src/baseline-rag.ipynb`, pairing each chunk with its index. -/
def chunkRecordsOf (S O : Nat) (d : Document) : List ChunkRecord :=
  (chunkCore S O d.text).enum.map fun p =>
    ⟨d.id_ ++ "-" ++ toString p.1, p.2, d.metadata⟩

/-- The `document_data` list built by the outer loop of
`src/baseline-rag.ipynb` lines 169-179, appending each document's chunk
records in order. -/
def document_data (S O : Nat) (docs : List Document) : List ChunkRecord :=
  docs.flatMap (chunkRecordsOf S O)

/-- The `answer_fn` of the FLARE evaluation notebook
(`src/unnamed/part_000` lines 397-400): query the engine with the question
and return the stringified answer.  The external query engine is abstracted
as a function from questions to answers. -/
def answer_fn (question : String) (query_engine : String → String) : String :=
  query_engine question

/-- `base_answer_fn` of `src/unnamed/part_000` lines 402-403: answers with
the base query engine; the optional `history` argument is accepted and
ignored. -/
def base_answer_fn {H : Type _} (base_query_engine : String → String)
    (question : String) (history : Option H) : String :=
  answer_fn question base_query_engine

/-- `flare_answer_fn` of `src/unnamed/part_000` lines 405-406: answers with
the FLARE query engine; the optional `history` argument is accepted and
ignored. -/
def flare_answer_fn {H : Type _} (flare_query_engine : String → String)
    (question : String) (history : Option H) : String :=
  answer_fn question flare_query_engine

/-- A concrete document used to instantiate the indexing-loop theorems. -/
def exampleDoc : Document :=
  ⟨"doc", ["A", "B", "C", "D", "E", "F", "G", "H"], [("source", "wiki")]⟩

/-- C1: for every text `T`, chunk size `S > 0` and overlap `O < S`,
chunking `T` and reassembling the chunks by dropping the leading
overlap-sized span from every chunk after the first reconstructs `T`
exactly. -/
theorem split_text_roundtrip {α : Type _} (S O : Nat) (ts : List α)
    (cs : List (List α)) (h : split_text S O ts = .ok cs) :
    reassemble O cs = ts := by
  by_cases hSO : O < S
  · simp [split_text, hSO] at h
    subst h
    exact reassemble_chunkFuel S O hSO ts.length ts le_rfl
  · simp [split_text, hSO] at h

/-- Witness for C1 at the spec's worked example. -/
theorem split_text_roundtrip_witness :
    reassemble 1 [["A", "B", "C", "D"], ["D", "E", "F", "G"], ["G", "H"]] =
      ["A", "B", "C", "D", "E", "F", "G", "H"] :=
  split_text_roundtrip 4 1 ["A", "B", "C", "D", "E", "F", "G", "H"]
    [["A", "B", "C", "D"], ["D", "E", "F", "G"], ["G", "H"]] rfl

/-- C2: every chunk produced by the chunker under a valid configuration has
at most `S` tokens. -/
theorem split_text_chunk_size {α : Type _} (S O : Nat) (ts : List α)
    (cs : List (List α)) (h : split_text S O ts = .ok cs)
    (c : List α) (hc : c ∈ cs) : c.length ≤ S := by
  by_cases hSO : O < S
  · simp [split_text, hSO] at h
    subst h
    exact chunkFuel_chunk_size S O ts.length ts c hc
  · simp [split_text, hSO] at h

/-- Witness for C2 at the spec's worked example. -/
theorem split_text_chunk_size_witness :
    (["D", "E", "F", "G"] : List String).length ≤ 4 :=
  split_text_chunk_size 4 1 ["A", "B", "C", "D", "E", "F", "G", "H"]
    [["A", "B", "C", "D"], ["D", "E", "F", "G"], ["G", "H"]] rfl
    ["D", "E", "F", "G"] (by decide)

/-- C3: consecutive chunks produced under a valid configuration share a
trailing/leading span of exactly `O` tokens: the trailing `O` tokens of
each chunk equal the leading `O` tokens of the next, and both chunks have
at least `O` tokens. -/
theorem split_text_overlap_chain {α : Type _} (S O : Nat) (ts : List α)
    (cs : List (List α)) (h : split_text S O ts = .ok cs) :
    List.Chain' (overlapRel O) cs := by
  by_cases hSO : O < S
  · simp [split_text, hSO] at h
    subst h
    exact chunkFuel_chain S O hSO ts.length ts le_rfl
  · simp [split_text, hSO] at h

/-- Witness for C3 at the spec's worked example. -/
theorem split_text_overlap_chain_witness :
    List.Chain' (overlapRel 1)
      [["A", "B", "C", "D"], ["D", "E", "F", "G"], ["G", "H"]] :=
  split_text_overlap_chain 4 1 ["A", "B", "C", "D", "E", "F", "G", "H"]
    [["A", "B", "C", "D"], ["D", "E", "F", "G"], ["G", "H"]] rfl

/-- C4: the chunker fails with `InvalidConfiguration` whenever `O ≥ S` or
`S ≤ 0`, returning the error and no chunks at all. -/
theorem split_text_invalid_config {α : Type _} (S O : Nat) (ts : List α)
    (h : S ≤ O ∨ S = 0) :
    split_text S O ts = .error ChunkError.InvalidConfiguration := by
  have hSO : ¬ O < S := by omega
  simp [split_text, hSO]

/-- Witness for C4 at `S = 4`, `O = 4`. -/
theorem split_text_invalid_config_witness :
    split_text 4 4 (["A"] : List String) =
      .error ChunkError.InvalidConfiguration :=
  split_text_invalid_config 4 4 ["A"] (Or.inl (by decide))

/-- C5: chunking the empty text under any valid configuration yields an
empty chunk sequence. -/
theorem split_text_empty {α : Type _} (S O : Nat) (hSO : O < S) :
    split_text S O ([] : List α) = .ok [] := by
  simp [split_text, hSO, chunkCore, chunkFuel]

/-- Witness for C5 at the notebook's configuration `S = 512`, `O = 20`. -/
theorem split_text_empty_witness :
    split_text 512 20 ([] : List String) = .ok [] :=
  split_text_empty 512 20 (by decide)

/-- C6: chunking a nonempty text of fewer than `S` tokens under a valid
configuration yields exactly one chunk, equal to the input. -/
theorem split_text_single_chunk {α : Type _} (S O : Nat) (ts : List α)
    (hne : ts ≠ []) (hlen : ts.length < S) (hSO : O < S) :
    split_text S O ts = .ok [ts] := by
  have hok : chunkCore S O ts = [ts] := by
    cases ts with
    | nil => exact absurd rfl hne
    | cons t rest =>
      have hle : rest.length + 1 ≤ S := by
        simpa using Nat.le_of_lt hlen
      simp [chunkCore, chunkFuel, hle]
  simp [split_text, hSO, hok]

/-- Witness for C6 at a two-token text with `S = 4`, `O = 1`. -/
theorem split_text_single_chunk_witness :
    split_text 4 1 (["A", "B"] : List String) = .ok [["A", "B"]] :=
  split_text_single_chunk 4 1 ["A", "B"] (by decide) (by decide) (by decide)

/-- C7: on the 8-token text "A B C D E F G H" with `S = 4` and `O = 1` the
chunker produces exactly the chunks "A B C D", "D E F G", "G H" in that
order, each of at most 4 tokens, with consecutive chunks overlapping by
exactly "D" and "G" respectively. -/
theorem split_text_worked_example :
    split_text 4 1 ["A", "B", "C", "D", "E", "F", "G", "H"] =
      .ok [["A", "B", "C", "D"], ["D", "E", "F", "G"], ["G", "H"]] ∧
    [["A", "B", "C", "D"], ["D", "E", "F", "G"], ["G", "H"]].map
        (String.intercalate " ") = ["A B C D", "D E F G", "G H"] ∧
    (∀ c ∈ [["A", "B", "C", "D"], ["D", "E", "F", "G"], ["G", "H"]],
        List.length c ≤ 4) ∧
    overlapRel 1 ["A", "B", "C", "D"] ["D", "E", "F", "G"] ∧
    overlapRel 1 ["D", "E", "F", "G"] ["G", "H"] ∧
    (["A", "B", "C", "D"] : List String).drop 3 = ["D"] ∧
    (["D", "E", "F", "G"] : List String).drop 3 = ["G"] :=
  ⟨rfl, by decide, by decide, ⟨by decide, by decide, by decide⟩,
    ⟨by decide, by decide, by decide⟩, by decide, by decide⟩

/-- C8: the chunker is a pure function of `(text, size, overlap)`: two runs
on equal inputs produce identical results. -/
theorem split_text_deterministic {α : Type _} (S₁ S₂ O₁ O₂ : Nat)
    (ts₁ ts₂ : List α) (hS : S₁ = S₂) (hO : O₁ = O₂) (hts : ts₁ = ts₂) :
    split_text S₁ O₁ ts₁ = split_text S₂ O₂ ts₂ := by
  subst hS
  subst hO
  subst hts
  rfl

/-- Witness for C8 at a concrete input. -/
theorem split_text_deterministic_witness :
    split_text 4 1 (["A", "B"] : List String) = split_text 4 1 ["A", "B"] :=
  split_text_deterministic 4 4 1 1 ["A", "B"] ["A", "B"] rfl rfl rfl

/-- C9: the record at index `i` of a document's chunk records holds the
`i`-th left-to-right window of the document's text (starting at token
`i * (S - O)`), an id formed from the document id and the sequence index
`i`, and the document's metadata. -/
theorem chunkRecordsOf_getElem (S O : Nat) (d : Document) (i : Nat)
    (hi : i < (chunkRecordsOf S O d).length) :
    (chunkRecordsOf S O d)[i] =
      ⟨d.id_ ++ "-" ++ toString i,
        (d.text.drop (i * (S - O))).take S, d.metadata⟩ := by
  have hi' : i < (chunkCore S O d.text).length := by
    simpa [chunkRecordsOf] using hi
  simp only [chunkRecordsOf, List.getElem_map, List.getElem_enum]
  congr 1
  exact chunkFuel_getElem S O d.text.length d.text i hi'

/-- Witness for C9 at the second chunk record of a concrete document. -/
theorem chunkRecordsOf_getElem_witness :
    (chunkRecordsOf 4 1 exampleDoc).get ⟨1, by decide⟩ =
      ⟨"doc-1", ["D", "E", "F", "G"], [("source", "wiki")]⟩ :=
  (chunkRecordsOf_getElem 4 1 exampleDoc 1 (by decide)).trans (by decide)

/-- C10: `base_answer_fn` and `flare_answer_fn` ignore their optional
`history` argument: any two history values (of any optional type) give the
same answer, which depends only on the question and the wrapped query
engine. -/
theorem answer_fn_history_independent {H₁ H₂ : Type}
    (base_engine flare_engine : String → String) (question : String)
    (hist₁ : Option H₁) (hist₂ : Option H₂) :
    base_answer_fn base_engine question hist₁ =
        base_answer_fn base_engine question hist₂ ∧
    flare_answer_fn flare_engine question hist₁ =
        flare_answer_fn flare_engine question hist₂ ∧
    base_answer_fn base_engine question hist₁ =
        answer_fn question base_engine ∧
    flare_answer_fn flare_engine question hist₁ =
        answer_fn question flare_engine :=
  ⟨rfl, rfl, rfl, rfl⟩

end RagChunk
